import Mathlib

/-!
Verification of the task-store core of `todo.py` (a command-line to-do list
manager) against its natural-language specification.

The embedding is shallow: Python classes become Lean structures, methods become
pure functions, and the process state (current time, fresh random identifiers,
the JSON file content) is passed explicitly.  `datetime.strptime` /
`datetime.strftime` with the fixed format `%Y-%m-%dT%H:%M:%S` are modelled by
`Todo.parseDate` / `Todo.formatDate`; `json.load` / `json.dump` are modelled by
passing the parsed array of records directly (`none` standing for a missing
file or a JSON decode error, exactly the two exceptions the code catches).

Python's `list.sort(key=..., reverse=True)` is a stable sort by the comparator
"key descending"; it is embedded as `List.insertionSort` with the total
preorder `Todo.sortRel` (stable sorts by the same total preorder agree on
every input, and `List.insertionSort` is stable).
-/

namespace Todo

/-- Model of a Python `datetime` value restricted to the fields that the fixed
format `%Y-%m-%dT%H:%M:%S` serialises (no microseconds, no timezone). -/
structure DateTime where
  year : Nat
  month : Nat
  day : Nat
  hour : Nat
  minute : Nat
  second : Nat
deriving DecidableEq, Repr

/-- Gregorian leap-year rule, as implemented by Python's `datetime`. -/
def isLeapYear (y : Nat) : Bool :=
  decide (y % 4 = 0) && (decide (y % 100 ≠ 0) || decide (y % 400 = 0))

/-- Number of days of a month, as validated by Python's `datetime` constructor. -/
def daysInMonth (y m : Nat) : Nat :=
  if m = 2 then (if isLeapYear y then 29 else 28)
  else if m = 4 ∨ m = 6 ∨ m = 9 ∨ m = 11 then 30
  else 31

/-- The field ranges accepted by Python's `datetime` constructor
(`MINYEAR = 1`, `MAXYEAR = 9999`). -/
def DateTime.valid (d : DateTime) : Prop :=
  1 ≤ d.year ∧ d.year ≤ 9999 ∧ 1 ≤ d.month ∧ d.month ≤ 12 ∧
  1 ≤ d.day ∧ d.day ≤ daysInMonth d.year d.month ∧
  d.hour ≤ 23 ∧ d.minute ≤ 59 ∧ d.second ≤ 59

instance (d : DateTime) : Decidable d.valid := by
  unfold DateTime.valid; infer_instance

/-- Decimal digit character, `digitChar10 3 = '3'`. -/
def digitChar10 (d : Nat) : Char := Char.ofNat (48 + d)

/-- Two-digit zero-padded decimal rendering (`%m`, `%d`, `%H`, `%M`, `%S`). -/
def pad2 (n : Nat) : List Char := [digitChar10 (n / 10 % 10), digitChar10 (n % 10)]

/-- Four-digit zero-padded decimal rendering (`%Y`; Python years are ≤ 9999). -/
def pad4 (n : Nat) : List Char :=
  [digitChar10 (n / 1000 % 10), digitChar10 (n / 100 % 10),
   digitChar10 (n / 10 % 10), digitChar10 (n % 10)]

/-- Model of `datetime.strftime(DATE_FORMAT)` with
`DATE_FORMAT = "%Y-%m-%dT%H:%M:%S"`, zero-padded per the Python documentation. -/
def formatDate (d : DateTime) : String :=
  ⟨pad4 d.year ++ '-' :: (pad2 d.month ++ '-' :: (pad2 d.day ++ 'T' ::
    (pad2 d.hour ++ ':' :: (pad2 d.minute ++ ':' :: pad2 d.second))))⟩

/-- Value of an ASCII decimal digit character, `none` for anything else. -/
def digitVal (c : Char) : Option Nat :=
  if 48 ≤ c.toNat ∧ c.toNat ≤ 57 then some (c.toNat - 48) else none

/-- Consume exactly four digits (the `%Y` directive of `strptime`). -/
def parse4 : List Char → Option (Nat × List Char)
  | c1 :: c2 :: c3 :: c4 :: rest =>
    match digitVal c1, digitVal c2, digitVal c3, digitVal c4 with
    | some d1, some d2, some d3, some d4 => some (((d1 * 10 + d2) * 10 + d3) * 10 + d4, rest)
    | _, _, _, _ => none
  | _ => none

/-- Consume one or two digits, greedily (the two-digit directives of
`strptime`; out-of-range values are rejected later). -/
def take2Digits : List Char → Option (Nat × List Char)
  | c1 :: c2 :: rest =>
    match digitVal c1, digitVal c2 with
    | some d1, some d2 => some (d1 * 10 + d2, rest)
    | some d1, none => some (d1, c2 :: rest)
    | none, _ => none
  | [c1] =>
    match digitVal c1 with
    | some d1 => some (d1, [])
    | none => none
  | [] => none

/-- Consume one expected literal character of the format string. -/
def expectChar (c : Char) : List Char → Option (List Char)
  | x :: rest => if x = c then some rest else none
  | [] => none

/-- Model of `datetime.strptime(s, "%Y-%m-%dT%H:%M:%S")`: `none` exactly when
Python raises `ValueError` (either the string does not match the format, or the
field values are rejected by the `datetime` constructor). -/
def parseDate (s : String) : Option DateTime := do
  let (y, r1) ← parse4 s.data
  let r2 ← expectChar '-' r1
  let (mo, r3) ← take2Digits r2
  let r4 ← expectChar '-' r3
  let (d, r5) ← take2Digits r4
  let r6 ← expectChar 'T' r5
  let (h, r7) ← take2Digits r6
  let r8 ← expectChar ':' r7
  let (mi, r9) ← take2Digits r8
  let r10 ← expectChar ':' r9
  let (sec, r11) ← take2Digits r10
  match r11 with
  | [] =>
    if 1 ≤ y ∧ 1 ≤ mo ∧ mo ≤ 12 ∧ 1 ≤ d ∧ d ≤ daysInMonth y mo ∧
        h ≤ 23 ∧ mi ≤ 59 ∧ sec ≤ 59 then
      some ⟨y, mo, d, h, mi, sec⟩
    else none
  | _ => none

/-- Model of the `Task` object of `todo.py`: `order` is `none` until assigned,
matching `self.order = None`. -/
structure Task where
  text : String
  creation_date : DateTime
  done : Bool
  priority : Int
  uuid : String
  order : Option Nat
deriving DecidableEq, Repr

/-- One element of the persisted JSON array, as a typed record.  An absent key
and a JSON `null` both become `none` (both make `kwargs.get` return a falsy
value in the Python constructor). -/
structure Record where
  text : Option String
  creation_date : Option String
  done : Option Bool
  priority : Option Int
  uuid : Option String
deriving DecidableEq, Repr

/-- Model of `Task.__init__(**kwargs)`: `now` is the value of
`datetime.utcnow()` at construction time and `freshUuid` the value a call to
`uuid4()` would produce.  Field by field this mirrors the Python constructor:
`text` defaults to `''`; the creation-date string defaults to
`'1970-01-01T00:00:01'` and is parsed with `strptime`, any `ValueError`
being replaced by the current time; `done` and `priority` use `or` with
falsy defaults; a missing or empty `uuid` is replaced by a fresh one. -/
def Task.fromRecord (now : DateTime) (freshUuid : String) (r : Record) : Task :=
  { text := r.text.getD ""
    creation_date :=
      match parseDate (r.creation_date.getD "1970-01-01T00:00:01") with
      | some d => d
      | none => now
    done := r.done.getD false
    priority := r.priority.getD 0
    uuid :=
      match r.uuid with
      | some u => if u = "" then freshUuid else u
      | none => freshUuid
    order := none }

/-- Does the text start with `'!'` or `'1'` (the guard of `Task.from_text`)? -/
def startsBang1 (s : String) : Bool :=
  match s.data with
  | c :: _ => c = '!' || c = '1'
  | [] => false

/-- Length of the leading run of `'1'`/`'!'` characters: the length of the
group captured by the regular expression `^([1!]+)`. -/
def runLen1Bang : List Char → Nat
  | c :: rest => if c = '1' || c = '!' then runLen1Bang rest + 1 else 0
  | [] => 0

/-- Character set of the Python call `text.lstrip('1! ')`. -/
def stripChar (c : Char) : Bool := c = '1' || c = '!' || c = ' '

/-- Model of `Task.from_text`: build a default task, then derive the priority
from the leading `!`/`1` run and strip `lstrip('1! ')` from the text. -/
def Task.from_text (now : DateTime) (freshUuid : String) (text : String) : Task :=
  let t := Task.fromRecord now freshUuid ⟨none, none, none, none, none⟩
  if startsBang1 text then
    { t with
      priority := (runLen1Bang text.data : Int)
      text := ⟨text.data.dropWhile stripChar⟩ }
  else
    { t with priority := 0, text := text }

/-- Model of the module-level `uuid4()` of `todo.py`, applied to the 16 bytes
returned by `os.urandom(16)`.  `'%x' % x` is unpadded lowercase hexadecimal,
which `Nat.toDigits 16` reproduces (`5 ↦ "5"`, `255 ↦ "ff"`). -/
def uuid4 (bytes : List Nat) : String :=
  let b : List Char := (bytes.map (fun x => Nat.toDigits 16 x)).flatten
  ⟨b.take 8⟩ ++ "-" ++ ⟨(b.drop 8).take 4⟩ ++ "-" ++ ⟨(b.drop 12).take 4⟩ ++ "-" ++
    ⟨(b.drop 16).take 4⟩ ++ "-" ++ ⟨b.drop 20⟩

/-- Lexicographic key type for a `DateTime`: Python compares `datetime`
values chronologically, which is the lexicographic order on the field tuple. -/
abbrev DKeyT := Nat ×ₗ (Nat ×ₗ (Nat ×ₗ (Nat ×ₗ (Nat ×ₗ Nat))))

/-- The lexicographic comparison key of a `DateTime`. -/
def DateTime.key (d : DateTime) : DKeyT :=
  toLex (d.year, toLex (d.month, toLex (d.day, toLex (d.hour, toLex (d.minute, d.second)))))

/-- Chronological order on `DateTime` values, as Python's `datetime.__le__`. -/
def DateTime.chronLe (a b : DateTime) : Prop := a.key ≤ b.key

/-- Type of the Python sort key `(not x.done, x.priority, x.creation_date)`
compared lexicographically (`False < True` on booleans). -/
abbrev SKeyT := Bool ×ₗ (Int ×ₗ DKeyT)

/-- The sort key `(not x.done, x.priority, x.creation_date)` of
`TasksStore.sort`. -/
def Task.sortKey (t : Task) : SKeyT :=
  toLex (!t.done, toLex (t.priority, t.creation_date.key))

/-- The ordering used by `self.tasks.sort(key=..., reverse=True)`: `a` may
come before `b` when `a`'s key is greater than or equal to `b`'s key. -/
def sortRel (a b : Task) : Prop := Task.sortKey b ≤ Task.sortKey a

instance : DecidableRel sortRel :=
  fun a b => inferInstanceAs (Decidable (Task.sortKey b ≤ Task.sortKey a))

instance : IsTotal Task sortRel :=
  ⟨fun a b => (le_total (Task.sortKey b) (Task.sortKey a)).imp id id⟩

instance : IsTrans Task sortRel :=
  ⟨fun _ _ _ hab hbc => le_trans hbc hab⟩

/-- Assign `order = index + 1` along a list, starting at index `n`: the loop
`for i, t in enumerate(self.tasks): t.order = i + 1`. -/
def assignOrders : Nat → List Task → List Task
  | _, [] => []
  | n, t :: ts => { t with order := some (n + 1) } :: assignOrders (n + 1) ts

namespace TasksStore

/-- Model of `TasksStore.sort()`: stable sort by the descending composite key,
then reassign `order = index + 1`.  Python's `list.sort` with `reverse=True`
is the stable sort by this total preorder, as is `List.insertionSort`. -/
def sort (tasks : List Task) : List Task :=
  assignOrders 0 (List.insertionSort sortRel tasks)

/-- Model of `MyEncoder.default` on a `Task`: serialise every attribute of
`o.__dict__` except `order`, the `datetime` rendered with `strftime`. -/
def encodeTask (t : Task) : Record :=
  { text := some t.text
    creation_date := some (formatDate t.creation_date)
    done := some t.done
    priority := some t.priority
    uuid := some t.uuid }

/-- Model of `TasksStore.save()`: the JSON array written to the backing file. -/
def save (tasks : List Task) : List Record := tasks.map encodeTask

/-- Model of `TasksStore.load_from_file`.  `parsed` is the result of
`json.load`: `none` when the file is missing or the JSON does not decode (the
two exceptions caught and ignored), otherwise the array of records.  Each
record becomes a `Task` and gets `order = index + 1`; the tasks are appended
to the current list (`prior` is `[]` on the constructor path, the only call
site). -/
def load_from_file (prior : List Task) (now : DateTime) (fresh : Nat → String)
    (parsed : Option (List Record)) : List Task :=
  match parsed with
  | none => prior
  | some rs =>
    prior ++ rs.enum.map (fun p => { Task.fromRecord now (fresh p.1) p.2 with order := some (p.1 + 1) })

/-- Case-insensitive substring test `needle in hay` on lowered strings is
built from these two helpers: `isPre` is string-prefix, `subOf needle hay`
is Python's `needle in hay`. -/
def isPre : List Char → List Char → Bool
  | [], _ => true
  | _ :: _, [] => false
  | a :: as, b :: bs => a == b && isPre as bs

/-- Substring occurrence test, Python's `in` on strings. -/
def subOf (needle : List Char) : List Char → Bool
  | [] => needle.isEmpty
  | c :: rest => isPre needle (c :: rest) || subOf needle rest

/-- Model of `str.lower()`, character-wise (`Char.toLower`). -/
def strLower (s : String) : String := ⟨s.data.map Char.toLower⟩

/-- Model of `TasksStore.list(count, filter_word)`.  A falsy `filter_word`
(`None` or the empty string) skips the filtering; otherwise keep the tasks
whose lowered text contains the lowered word.  `tasks[:count]` for
`count ≥ 0` and `tasks[count:]` for `count < 0` are Python slices. -/
def list (tasks : List Task) (count : Int) (filter_word : Option String) : List Task :=
  let ts :=
    match filter_word with
    | some w => if w = "" then tasks else tasks.filter (fun t => subOf (strLower w).data (strLower t.text).data)
    | none => tasks
  if 0 ≤ count then ts.take count.toNat
  else ts.drop (ts.length - (-count).toNat)

end TasksStore

/-- Replace the element at index `i`, identity out of range (the in-range
behaviour of `tasks[pos - 1] = ...`; Python raises `IndexError` out of range,
so theorems about the CLI actions carry an in-range hypothesis). -/
def modifyAt (f : Task → Task) : List Task → Nat → List Task
  | [], _ => []
  | t :: ts, 0 => f t :: ts
  | t :: ts, n + 1 => t :: modifyAt f ts n

/-- Model of the `elif args.done:` branch of `main()`: mark the task at the
1-based position done, then save — with no re-sort.  Returns the new store
and the saved array. -/
def doneAction (tasks : List Task) (pos : Nat) : List Task × List Record :=
  let ts := modifyAt (fun t => { t with done := true }) tasks (pos - 1)
  (ts, TasksStore.save ts)

/-- Model of the `elif args.edit:` branch of `main()`: optionally replace the
text and/or the priority of the task at the 1-based position, then save if
anything was given — with no re-sort.  `none` models a falsy `args.text` /
`args.priority`; the saved array is `none` when nothing was written. -/
def editAction (tasks : List Task) (pos : Nat) (newText : Option String)
    (newPriority : Option Int) : List Task × Option (List Record) :=
  let ts1 :=
    match newText with
    | some s => modifyAt (fun t => { t with text := s }) tasks (pos - 1)
    | none => tasks
  let ts2 :=
    match newPriority with
    | some p => modifyAt (fun t => { t with priority := p }) ts1 (pos - 1)
    | none => ts1
  (ts2, if newText.isSome || newPriority.isSome then some (TasksStore.save ts2) else none)

/-- Model of the final `elif args.text:` branch of `main()` (add a task, after
the duplicate prompt and the priority override): append, sort, save. -/
def addAction (tasks : List Task) (task : Task) : List Task × List Record :=
  let ts := TasksStore.sort (tasks ++ [task])
  (ts, TasksStore.save ts)

/-- Modelled from the spec (claim C2's wording, for comparison with the code):
"the leading run and the following whitespace are stripped from the stored
text" — drop exactly the leading `!`/`1` run, then any following spaces. -/
def specStripRunWS (text : String) : String :=
  ⟨(text.data.drop (runLen1Bang text.data)).dropWhile (fun c => c = ' ')⟩

/-- Modelled from the spec (claim C9's wording, for comparison with the code):
an edit-by-position must "apply the change, then call `sort()`, then
`save()`". -/
def editPerClaim (tasks : List Task) (pos : Nat) (newText : Option String)
    (newPriority : Option Int) : List Task × Option (List Record) :=
  let ts1 :=
    match newText with
    | some s => modifyAt (fun t => { t with text := s }) tasks (pos - 1)
    | none => tasks
  let ts2 :=
    match newPriority with
    | some p => modifyAt (fun t => { t with priority := p }) ts1 (pos - 1)
    | none => ts1
  let sorted := TasksStore.sort ts2
  (sorted, if newText.isSome || newPriority.isSome then some (TasksStore.save sorted) else none)

/-! Helper lemmas about date formatting and parsing. -/

theorem digitVal_digitChar10 {k : Nat} (hk : k ≤ 9) : digitVal (digitChar10 k) = some k := by
  interval_cases k <;> decide

theorem parse4_pad4 {y : Nat} (hy : y ≤ 9999) (rest : List Char) :
    parse4 (pad4 y ++ rest) = some (y, rest) := by
  have h1 : y / 1000 % 10 ≤ 9 := Nat.le_of_lt_succ (Nat.mod_lt _ (by omega))
  have h2 : y / 100 % 10 ≤ 9 := Nat.le_of_lt_succ (Nat.mod_lt _ (by omega))
  have h3 : y / 10 % 10 ≤ 9 := Nat.le_of_lt_succ (Nat.mod_lt _ (by omega))
  have h4 : y % 10 ≤ 9 := Nat.le_of_lt_succ (Nat.mod_lt _ (by omega))
  simp only [pad4, List.cons_append, List.nil_append, parse4,
    digitVal_digitChar10 h1, digitVal_digitChar10 h2, digitVal_digitChar10 h3,
    digitVal_digitChar10 h4]
  congr 1
  congr 1
  omega

theorem take2_pad2 {n : Nat} (hn : n ≤ 99) (rest : List Char) :
    take2Digits (pad2 n ++ rest) = some (n, rest) := by
  have h1 : n / 10 % 10 ≤ 9 := Nat.le_of_lt_succ (Nat.mod_lt _ (by omega))
  have h2 : n % 10 ≤ 9 := Nat.le_of_lt_succ (Nat.mod_lt _ (by omega))
  simp only [pad2, List.cons_append, List.nil_append, take2Digits,
    digitVal_digitChar10 h1, digitVal_digitChar10 h2]
  congr 1
  congr 1
  omega

theorem take2_pad2_nil {n : Nat} (hn : n ≤ 99) :
    take2Digits (pad2 n) = some (n, []) := by
  simpa using take2_pad2 hn []

theorem expectChar_cons (c : Char) (rest : List Char) :
    expectChar c (c :: rest) = some rest := by
  simp [expectChar]

/-- Formatting a valid datetime and parsing it back returns it unchanged. -/
theorem parse_formatDate {d : DateTime} (hd : d.valid) :
    parseDate (formatDate d) = some d := by
  obtain ⟨h1, h2, h3, h4, h5, h6, h7, h8, h9⟩ := hd
  simp only [parseDate, formatDate, bind, Option.bind,
    parse4_pad4 h2, expectChar_cons,
    take2_pad2 (show d.month ≤ 99 by omega),
    take2_pad2 (show d.day ≤ 99 by
      have : daysInMonth d.year d.month ≤ 31 := by
        unfold daysInMonth; split <;> [split <;> omega; split <;> omega]
      omega),
    take2_pad2 (show d.hour ≤ 99 by omega),
    take2_pad2 (show d.minute ≤ 99 by omega),
    take2_pad2_nil (show d.second ≤ 99 by omega)]
  rw [if_pos]
  · exact ⟨h1, h3, h4, h5, h6, h7, h8, h9⟩

/-- Decoding an encoded task restores every field except `order`, provided the
stored uuid is non-empty (always true for tasks the program builds) and the
creation date is a valid datetime (always true for parsed or current dates). -/
theorem fromRecord_encodeTask (now : DateTime) (u : String) {t : Task}
    (huuid : t.uuid ≠ "") (hdate : t.creation_date.valid) :
    Task.fromRecord now u (TasksStore.encodeTask t) = { t with order := none } := by
  simp only [Task.fromRecord, TasksStore.encodeTask, Option.getD_some,
    parse_formatDate hdate, if_neg huuid]

/-! Helper lemmas about `assignOrders` and the sort. -/

theorem assignOrders_map_sortKey : ∀ (n : Nat) (l : List Task),
    (assignOrders n l).map Task.sortKey = l.map Task.sortKey
  | _, [] => rfl
  | n, _ :: ts => by
    simp only [assignOrders, List.map_cons, assignOrders_map_sortKey (n + 1) ts]
    rfl

theorem assignOrders_assignOrders : ∀ (n : Nat) (l : List Task),
    assignOrders n (assignOrders n l) = assignOrders n l
  | _, [] => rfl
  | n, _ :: ts => by
    simp only [assignOrders, assignOrders_assignOrders (n + 1) ts]

theorem assignOrders_map_order : ∀ (n : Nat) (l : List Task),
    (assignOrders n l).map Task.order = (List.range l.length).map (fun i => some (n + i + 1))
  | _, [] => rfl
  | n, t :: ts => by
    simp only [assignOrders, List.map_cons, assignOrders_map_order (n + 1) ts,
      List.length_cons, List.range_succ_eq_map, List.map_map, List.cons.injEq]
    refine ⟨by simp, ?_⟩
    apply List.map_congr_left
    intro i _
    simp only [Function.comp_apply]
    congr 1
    omega

/-- Two lists with the same image under `Task.sortKey` are sorted the same
way for `sortRel`. -/
theorem pairwise_sortRel_of_map_sortKey {l₁ l₂ : List Task}
    (h : l₁.map Task.sortKey = l₂.map Task.sortKey)
    (hp : l₁.Pairwise sortRel) : l₂.Pairwise sortRel := by
  have h1 : (l₁.map Task.sortKey).Pairwise (fun x y : SKeyT => y ≤ x) :=
    (List.pairwise_map).mpr (hp.imp (fun hab => hab))
  rw [h] at h1
  exact (List.pairwise_map).mp h1 |>.imp (fun hab => hab)

/-- The task sequence produced by `TasksStore.sort` is sorted for `sortRel`. -/
theorem sort_pairwise (tasks : List Task) :
    (TasksStore.sort tasks).Pairwise sortRel := by
  unfold TasksStore.sort
  exact pairwise_sortRel_of_map_sortKey
    (assignOrders_map_sortKey 0 (List.insertionSort sortRel tasks)).symm
    (List.sorted_insertionSort sortRel tasks)

/-- `TasksStore.sort` is idempotent. -/
theorem sort_sort (tasks : List Task) :
    TasksStore.sort (TasksStore.sort tasks) = TasksStore.sort tasks := by
  unfold TasksStore.sort
  rw [List.Sorted.insertionSort_eq (l := assignOrders 0 (List.insertionSort sortRel tasks))
    (pairwise_sortRel_of_map_sortKey
      (assignOrders_map_sortKey 0 (List.insertionSort sortRel tasks)).symm
      (List.sorted_insertionSort sortRel tasks)),
    assignOrders_assignOrders]

/-- Unpack one `sortRel` step into the phrasing of the specification: done
before not-done never happens, and within a done-bucket priority descends,
then the creation timestamp descends. -/
theorem sortRel_unpack {a b : Task} (h : sortRel a b) :
    a.done ≤ b.done ∧
      (a.done = b.done → b.priority ≤ a.priority ∧
        (a.priority = b.priority → DateTime.chronLe b.creation_date a.creation_date)) := by
  unfold sortRel Task.sortKey at h
  simp only [Prod.Lex.le_iff] at h
  rcases h with h | ⟨hb, h⟩
  · rw [Bool.lt_iff] at h
    obtain ⟨hb, ha⟩ := h
    have ha2 : a.done = false := by simpa using ha
    have hb2 : b.done = true := by simpa using hb
    refine ⟨by rw [ha2]; exact Bool.false_le _, ?_⟩
    intro hcontr
    rw [ha2, hb2] at hcontr
    exact absurd hcontr (by simp)
  · have hdone : a.done = b.done := by
      cases ca : a.done <;> cases cb : b.done <;> simp_all
    refine ⟨le_of_eq hdone, fun _ => ?_⟩
    rcases h with h | ⟨hp, h⟩
    · exact ⟨le_of_lt h, fun hpe => absurd hpe (by omega)⟩
    · exact ⟨le_of_eq hp, fun _ => h⟩

/-! Helper lemmas about `modifyAt`, enumeration, and loading. -/

theorem modifyAt_length (f : Task → Task) :
    ∀ (l : List Task) (i : Nat), (modifyAt f l i).length = l.length
  | [], _ => rfl
  | _ :: _, 0 => rfl
  | _ :: ts, n + 1 => by simp [modifyAt, modifyAt_length f ts n]

theorem modifyAt_getElem?_eq (f : Task → Task) :
    ∀ (l : List Task) (i : Nat), (modifyAt f l i)[i]? = (l[i]?).map f
  | [], _ => by simp [modifyAt]
  | _ :: _, 0 => by simp [modifyAt]
  | _ :: ts, n + 1 => by
    simp [modifyAt, List.getElem?_cons_succ, modifyAt_getElem?_eq f ts n]

theorem modifyAt_getElem?_ne (f : Task → Task) :
    ∀ (l : List Task) (i j : Nat), i ≠ j → (modifyAt f l i)[j]? = l[j]?
  | [], _, _, _ => by simp [modifyAt]
  | _ :: _, 0, 0, h => absurd rfl h
  | _ :: _, 0, _ + 1, _ => by simp [modifyAt]
  | _ :: _, _ + 1, 0, _ => by simp [modifyAt]
  | _ :: ts, n + 1, m + 1, h => by
    simp only [modifyAt, List.getElem?_cons_succ]
    exact modifyAt_getElem?_ne f ts n m (by omega)

theorem enumFrom_map_getElem? {α : Type} (f : Nat × Record → α) :
    ∀ (n : Nat) (rs : List Record) (i : Nat),
      ((List.enumFrom n rs).map f)[i]? = (rs[i]?).map (fun r => f (n + i, r))
  | _, [], _ => by simp
  | n, _ :: _, 0 => by simp
  | n, _ :: rs, i + 1 => by
    have harith : n + 1 + i = n + (i + 1) := by omega
    simp only [List.enumFrom, List.map_cons, List.getElem?_cons_succ,
      enumFrom_map_getElem? f (n + 1) rs i, harith]

theorem enumFrom_orders : ∀ (n : Nat) (rs : List Record),
    ((List.enumFrom n rs).map (fun p => some (p.1 + 1))) =
      (List.range rs.length).map (fun i => some (n + i + 1))
  | _, [] => rfl
  | n, r :: rs => by
    simp only [List.enumFrom, List.map_cons, enumFrom_orders (n + 1) rs,
      List.length_cons, List.range_succ_eq_map, List.map_map, List.cons.injEq]
    refine ⟨by simp, ?_⟩
    apply List.map_congr_left
    intro i _
    simp only [Function.comp_apply]
    congr 1
    omega

/-- Saving then reloading preserves text, done, priority and uuid positionally,
provided the stored uuids are non-empty (true of every task the program ever
constructs, since `uuid4()` output is never empty). -/
theorem save_load_proj4 (now : DateTime) (fresh : Nat → String) :
    ∀ (n : Nat) (tasks : List Task), (∀ t ∈ tasks, t.uuid ≠ "") →
      ((List.enumFrom n (TasksStore.save tasks)).map
          (fun p => { Task.fromRecord now (fresh p.1) p.2 with order := some (p.1 + 1) })).map
          (fun t => (t.text, t.done, t.priority, t.uuid))
        = tasks.map (fun t => (t.text, t.done, t.priority, t.uuid))
  | _, [], _ => rfl
  | n, t :: ts, h => by
    have hu : t.uuid ≠ "" := h t (by simp)
    have ih := save_load_proj4 now fresh (n + 1) ts (fun x hx => h x (by simp [hx]))
    simp only [TasksStore.save, List.map_cons, List.enumFrom] at ih ⊢
    rw [List.cons.injEq]
    refine ⟨?_, ih⟩
    simp [Task.fromRecord, TasksStore.encodeTask, if_neg hu]

/-- After save-then-reload, every creation date is the formatted-then-reparsed
value of the original (falling back to the load-time clock if reparsing were
to fail). -/
theorem save_load_dates (now : DateTime) (fresh : Nat → String) :
    ∀ (n : Nat) (tasks : List Task),
      ((List.enumFrom n (TasksStore.save tasks)).map
          (fun p => { Task.fromRecord now (fresh p.1) p.2 with order := some (p.1 + 1) })).map
          (fun t => t.creation_date)
        = tasks.map (fun t => (parseDate (formatDate t.creation_date)).getD now)
  | _, [] => rfl
  | n, t :: ts => by
    have ih := save_load_dates now fresh (n + 1) ts
    simp only [TasksStore.save, List.map_cons, List.enumFrom] at ih ⊢
    rw [List.cons.injEq]
    refine ⟨?_, ih⟩
    cases h : parseDate (formatDate t.creation_date) <;>
      simp [Task.fromRecord, TasksStore.encodeTask, h]

/-- Stability of the underlying sort: a bucket of pairwise-equal-key tasks is
returned in its original relative order. -/
theorem insertionSort_filter_stable (ts : List Task) (p : Task → Bool)
    (hp : ∀ a ∈ ts, ∀ b ∈ ts, p a = true → p b = true → Task.sortKey a = Task.sortKey b) :
    (List.insertionSort sortRel ts).filter p = ts.filter p := by
  have hpw : (ts.filter p).Pairwise sortRel := by
    apply List.pairwise_of_forall_mem_list
    intro a ha b hb
    rw [List.mem_filter] at ha hb
    have : Task.sortKey a = Task.sortKey b := hp a ha.1 b hb.1 ha.2 hb.2
    exact le_of_eq this.symm
  have hsub : List.Sublist (ts.filter p) (List.insertionSort sortRel ts) :=
    List.sublist_insertionSort hpw (List.filter_sublist ts)
  have hsub2 : List.Sublist (ts.filter p) ((List.insertionSort sortRel ts).filter p) := by
    have h2 := hsub.filter p
    rw [List.filter_filter] at h2
    simpa only [Bool.and_self] using h2
  have hperm : List.Perm ((List.insertionSort sortRel ts).filter p) (ts.filter p) :=
    (List.perm_insertionSort sortRel ts).filter p
  exact (hsub2.eq_of_length hperm.length_eq.symm).symm

/-- Python's `needle in hay` is true for the empty needle. -/
theorem subOf_nil : ∀ (hay : List Char), TasksStore.subOf [] hay = true
  | [] => rfl
  | _ :: rest => by simp [TasksStore.subOf, TasksStore.isPre]

/-! Concrete fixtures used by witnesses and counterexamples. -/

/-- Fixture clock value. -/
def now0 : DateTime := ⟨2020, 6, 1, 12, 0, 0⟩

/-- Fixture task: not done, priority 5. -/
def taskA : Task := ⟨"alpha", ⟨2020, 1, 1, 0, 0, 0⟩, false, 5, "ua", some 1⟩

/-- Fixture task: not done, priority 1. -/
def taskB : Task := ⟨"beta", ⟨2020, 1, 2, 0, 0, 0⟩, false, 1, "ub", some 2⟩

/-- Fixture task with the same sort key as `taskA` but different text/uuid. -/
def taskC : Task := ⟨"gamma", ⟨2020, 1, 1, 0, 0, 0⟩, false, 5, "uc", some 9⟩

/-! The claims. -/

/-- Claim C1: after `TasksStore.sort()`, any adjacent pair (a, b) satisfies
`a.done ≤ b.done` (incomplete before completed), and within a done-bucket
priority descends, then the creation timestamp descends as final tie-break. -/
theorem sort_adjacent_ordered (tasks : List Task) :
    (TasksStore.sort tasks).Chain' (fun a b =>
      a.done ≤ b.done ∧
        (a.done = b.done → b.priority ≤ a.priority ∧
          (a.priority = b.priority → DateTime.chronLe b.creation_date a.creation_date))) :=
  ((sort_pairwise tasks).imp sortRel_unpack).chain'

/-- Claim C2, counterexample: on `"! !a"` the code keeps text `"a"` (it strips
every leading `'!'`, `'1'` and space via `lstrip('1! ')`), while stripping
only the leading run and the following whitespace would keep `"!a"`. -/
theorem from_text_strip_cex :
    (Task.from_text now0 "u" "! !a").text = "a" ∧
      specStripRunWS "! !a" = "!a" ∧
      (Task.from_text now0 "u" "! !a").text ≠ specStripRunWS "! !a" := by
  decide

/-- Claim C2, amended: priority is the length of the leading `!`/`1` run; a
text not starting with `!`/`1` is kept verbatim with priority 0; otherwise all
leading `'!'`, `'1'` and `' '` characters are stripped (`lstrip('1! ')`), not
only the run and the following whitespace.  The three spec examples hold. -/
theorem from_text_spec (now : DateTime) (u : String) (text : String) :
    (startsBang1 text = false →
      (Task.from_text now u text).priority = 0 ∧ (Task.from_text now u text).text = text) ∧
    (startsBang1 text = true →
      (Task.from_text now u text).priority = (runLen1Bang text.data : Int) ∧
      (Task.from_text now u text).text = ⟨text.data.dropWhile stripChar⟩) ∧
    (Task.from_text now u "!!!call mom").priority = 3 ∧
    (Task.from_text now u "!!!call mom").text = "call mom" ∧
    (Task.from_text now u "111 buy milk").priority = 3 ∧
    (Task.from_text now u "111 buy milk").text = "buy milk" ∧
    (Task.from_text now u "buy milk").priority = 0 ∧
    (Task.from_text now u "buy milk").text = "buy milk" := by
  have hify : ∀ (s : String), startsBang1 s = true →
      (Task.from_text now u s).priority = (runLen1Bang s.data : Int) ∧
      (Task.from_text now u s).text = ⟨s.data.dropWhile stripChar⟩ := by
    intro s h
    simp [Task.from_text, h]
  have hifn : ∀ (s : String), startsBang1 s = false →
      (Task.from_text now u s).priority = 0 ∧ (Task.from_text now u s).text = s := by
    intro s h
    simp [Task.from_text, h]
  refine ⟨hifn text, hify text, ?_, ?_, ?_, ?_, ?_, ?_⟩
  · rw [(hify "!!!call mom" (by decide)).1]; decide
  · rw [(hify "!!!call mom" (by decide)).2]; decide
  · rw [(hify "111 buy milk" (by decide)).1]; decide
  · rw [(hify "111 buy milk" (by decide)).2]; decide
  · rw [(hifn "buy milk" (by decide)).1]
  · rw [(hifn "buy milk" (by decide)).2]

/-- Claim C2 witness: concrete instantiation of `from_text_spec`. -/
theorem from_text_spec_witness :
    (Task.from_text now0 "u" "buy milk").priority = 0 ∧
      (Task.from_text now0 "u" "buy milk").text = "buy milk" :=
  (from_text_spec now0 "u" "buy milk").1 (by decide)

/-- Claim C3: `list(count, filterWord)` first restricts (when a word is given)
to the tasks whose text contains it case-insensitively, in order, then takes
the first `count` (for `count ≥ 0`) or the last `|count|` (for `count < 0`)
of the filtered sequence; `count = 0` yields the empty list.  The function
does not touch the store, so non-mutation is intrinsic to the embedding. -/
theorem list_filters_then_slices (tasks : List Task) (count : Int) (fw : Option String) :
    TasksStore.list tasks count fw =
      (let filtered :=
        match fw with
        | none => tasks
        | some w => tasks.filter (fun t =>
            TasksStore.subOf (TasksStore.strLower w).data (TasksStore.strLower t.text).data)
      if 0 ≤ count then filtered.take count.toNat
      else filtered.drop (filtered.length - (-count).toNat)) ∧
    TasksStore.list tasks 0 fw = [] := by
  constructor
  · cases fw with
    | none => rfl
    | some w =>
      by_cases hw : w = ""
      · subst hw
        have hfilter : tasks.filter (fun t =>
            TasksStore.subOf (TasksStore.strLower "").data (TasksStore.strLower t.text).data)
              = tasks :=
          List.filter_eq_self.mpr (fun a _ => subOf_nil _)
        simp [TasksStore.list, hfilter]
      · simp [TasksStore.list, hw]
  · cases fw with
    | none => simp [TasksStore.list]
    | some w => by_cases hw : w = "" <;> simp [TasksStore.list, hw]

/-- Claim C4, counterexample: a record with no creation-date string yields the
parsed default `1970-01-01T00:00:01`, not the current timestamp. -/
theorem fromRecord_absent_date_cex :
    (Task.fromRecord now0 "u" ⟨none, none, none, none, none⟩).creation_date ≠ now0 ∧
      (Task.fromRecord now0 "u" ⟨none, none, none, none, none⟩).creation_date
        = ⟨1970, 1, 1, 0, 0, 1⟩ := by
  decide

/-- Claim C4, amended: when the creation-date string is absent the task gets
the parsed default `1970-01-01T00:00:01`; when it is present but does not
parse against `%Y-%m-%dT%H:%M:%S` the task gets the current timestamp; when
it parses, the parsed value.  Construction is total, so a bad date never
fails the load of the record. -/
theorem fromRecord_date_handling (now : DateTime) (u : String) (r : Record) :
    (r.creation_date = none →
      (Task.fromRecord now u r).creation_date = ⟨1970, 1, 1, 0, 0, 1⟩) ∧
    (∀ s, r.creation_date = some s → parseDate s = none →
      (Task.fromRecord now u r).creation_date = now) ∧
    (∀ s d, r.creation_date = some s → parseDate s = some d →
      (Task.fromRecord now u r).creation_date = d) := by
  refine ⟨?_, ?_, ?_⟩
  · intro h
    simp only [Task.fromRecord, h, Option.getD_none,
      show parseDate "1970-01-01T00:00:01" = some ⟨1970, 1, 1, 0, 0, 1⟩ from by decide]
  · intro s hs hp
    simp only [Task.fromRecord, hs, Option.getD_some, hp]
  · intro s d hs hp
    simp only [Task.fromRecord, hs, Option.getD_some, hp]

/-- Claim C4 witness: an unparseable stored date degrades to the current
timestamp. -/
theorem fromRecord_date_handling_witness :
    (Task.fromRecord now0 "u" ⟨none, some "not-a-date", none, none, none⟩).creation_date = now0 :=
  (fromRecord_date_handling now0 "u" ⟨none, some "not-a-date", none, none, none⟩).2.1
    "not-a-date" rfl (by decide)

/-- Claim C5: saving then loading reproduces the (text, done, priority, uuid)
tuples in order (hence as a multiset), and each creation date equals its
formatted-then-reparsed value (which is the original whenever the original is
a valid datetime, as every date the program stores is); `order` is excluded.
The uuid hypothesis holds for every task the program constructs, since
`uuid4()` never returns the empty string. -/
theorem save_load_roundtrip (tasks : List Task) (now : DateTime) (fresh : Nat → String)
    (huuid : ∀ t ∈ tasks, t.uuid ≠ "") :
    (TasksStore.load_from_file [] now fresh (some (TasksStore.save tasks))).map
        (fun t => (t.text, t.done, t.priority, t.uuid))
      = tasks.map (fun t => (t.text, t.done, t.priority, t.uuid)) ∧
    (TasksStore.load_from_file [] now fresh (some (TasksStore.save tasks))).map
        (fun t => t.creation_date)
      = tasks.map (fun t => (parseDate (formatDate t.creation_date)).getD now) ∧
    ((∀ t ∈ tasks, t.creation_date.valid) →
      (TasksStore.load_from_file [] now fresh (some (TasksStore.save tasks))).map
          (fun t => t.creation_date)
        = tasks.map (fun t => t.creation_date)) := by
  have hload : TasksStore.load_from_file [] now fresh (some (TasksStore.save tasks))
      = (List.enumFrom 0 (TasksStore.save tasks)).map
          (fun p => { Task.fromRecord now (fresh p.1) p.2 with order := some (p.1 + 1) }) :=
    rfl
  refine ⟨?_, ?_, ?_⟩
  · rw [hload]
    exact save_load_proj4 now fresh 0 tasks huuid
  · rw [hload]
    exact save_load_dates now fresh 0 tasks
  · intro hv
    rw [hload, save_load_dates now fresh 0 tasks]
    exact List.map_congr_left (fun t ht => by rw [parse_formatDate (hv t ht)]; rfl)

/-- Claim C5 witness: concrete roundtrip of a one-task store. -/
theorem save_load_roundtrip_witness :
    (TasksStore.load_from_file [] now0 (fun _ => "w") (some (TasksStore.save [taskA]))).map
        (fun t => (t.text, t.done, t.priority, t.uuid))
      = [taskA].map (fun t => (t.text, t.done, t.priority, t.uuid)) ∧
    (TasksStore.load_from_file [] now0 (fun _ => "w") (some (TasksStore.save [taskA]))).map
        (fun t => t.creation_date)
      = [taskA].map (fun t => t.creation_date) :=
  ⟨(save_load_roundtrip [taskA] now0 (fun _ => "w") (by decide)).1,
    (save_load_roundtrip [taskA] now0 (fun _ => "w") (by decide)).2.2 (by decide)⟩

/-- Claim C6: a missing file or undecodable JSON (`parsed = none`, the two
exceptions the code catches) loads as the empty task list, with no error
surfacing (the embedding is a total function); a parsed array yields one task
per record with `order = index + 1` in file order. -/
theorem load_missing_or_parsed (now : DateTime) (fresh : Nat → String) :
    TasksStore.load_from_file [] now fresh none = [] ∧
    ∀ rs : List Record,
      (TasksStore.load_from_file [] now fresh (some rs)).length = rs.length ∧
      ∀ i : Nat,
        (TasksStore.load_from_file [] now fresh (some rs))[i]? =
          (rs[i]?).map (fun r => { Task.fromRecord now (fresh i) r with order := some (i + 1) }) := by
  refine ⟨rfl, fun rs => ⟨?_, fun i => ?_⟩⟩
  · simp [TasksStore.load_from_file]
  · have h := enumFrom_map_getElem?
      (fun p => { Task.fromRecord now (fresh p.1) p.2 with order := some (p.1 + 1) }) 0 rs i
    simpa [TasksStore.load_from_file, List.enum] using h

/-- Claim C7 (code bug): `'%x' % x` does not zero-pad, so any byte below 0x10
shrinks the hex string and the 8-4-4-4-12 grouping collapses; e.g. sixteen
zero bytes give the 20-character string `"00000000-0000-0000--"` with two
empty groups instead of a canonical 36-character identifier.  When every byte
is at least 0x10 the canonical form does come out, as the last conjunct
shows. -/
theorem uuid4_unpadded :
    uuid4 (List.replicate 16 0) = "00000000-0000-0000--" ∧
    (uuid4 (List.replicate 16 0)).length = 20 ∧
    uuid4 [0x12, 0x34, 0x56, 0x78, 0x9a, 0xbc, 0xde, 0xf0,
           0x11, 0x22, 0x33, 0x44, 0x55, 0x66, 0x77, 0x88]
      = "12345678-9abc-def0-1122-334455667788" := by
  decide

/-- Claim C8: after `sort()` and after a load of an existing (parsed) file
from the constructor path, the `order` fields are exactly the contiguous
ranking 1..N along the task sequence. -/
theorem orders_contiguous (tasks : List Task) (now : DateTime) (fresh : Nat → String)
    (rs : List Record) :
    (TasksStore.sort tasks).map Task.order
      = (List.range tasks.length).map (fun i => some (i + 1)) ∧
    (TasksStore.load_from_file [] now fresh (some rs)).map Task.order
      = (List.range rs.length).map (fun i => some (i + 1)) := by
  constructor
  · rw [TasksStore.sort, assignOrders_map_order 0, List.length_insertionSort]
    exact List.map_congr_left (fun i _ => by simp)
  · have h1 : (TasksStore.load_from_file [] now fresh (some rs)).map Task.order
        = (List.enumFrom 0 rs).map (fun p => some (p.1 + 1)) := by
      simp [TasksStore.load_from_file, List.enum, List.map_map]
    rw [h1, enumFrom_orders 0 rs]
    exact List.map_congr_left (fun i _ => by simp)

/-- Claim C9, counterexample: editing the priority of the second of two tasks
leaves the store unsorted and saves it as-is, while the claim requires a
re-sort before the save. -/
theorem edit_not_resorted_cex :
    editAction [taskA, taskB] 2 none (some 9) ≠ editPerClaim [taskA, taskB] 2 none (some 9) := by
  decide

/-- Claim C9, amended: add-task appends, re-sorts, then saves; mark-done sets
the done flag at the 1-based position and saves with no re-sort (permitted by
the claim); edit-by-position updates text and/or priority at the 1-based
position and saves with no re-sort (saving only when a change was requested)
— contrary to the claim, the edit branch never calls `sort()`. -/
theorem actions_apply_at_position (ts : List Task) (task : Task) (pos : Nat)
    (nt : Option String) (np : Option Int) (_h1 : 1 ≤ pos) (_h2 : pos ≤ ts.length) :
    ((addAction ts task).1 = TasksStore.sort (ts ++ [task]) ∧
      (addAction ts task).2 = TasksStore.save (addAction ts task).1) ∧
    ((doneAction ts pos).1.length = ts.length ∧
      (doneAction ts pos).2 = TasksStore.save (doneAction ts pos).1 ∧
      (doneAction ts pos).1[pos - 1]? = (ts[pos - 1]?).map (fun t => { t with done := true }) ∧
      ∀ j, j ≠ pos - 1 → (doneAction ts pos).1[j]? = ts[j]?) ∧
    ((editAction ts pos nt np).1[pos - 1]? =
        (ts[pos - 1]?).map (fun t =>
          { t with text := nt.getD t.text, priority := np.getD t.priority }) ∧
      (∀ j, j ≠ pos - 1 → (editAction ts pos nt np).1[j]? = ts[j]?) ∧
      (editAction ts pos nt np).2 =
        (if nt.isSome || np.isSome then some (TasksStore.save (editAction ts pos nt np).1)
         else none)) := by
  refine ⟨⟨rfl, rfl⟩, ⟨modifyAt_length _ ts _, rfl, modifyAt_getElem?_eq _ ts _, ?_⟩, ?_, ?_, ?_⟩
  · intro j hj
    exact modifyAt_getElem?_ne _ ts _ j (by omega)
  · rcases nt with _ | s <;> rcases np with _ | p
    all_goals simp [editAction, modifyAt_getElem?_eq, Option.map_map]
    all_goals cases ts[pos - 1]? <;> simp_all
  · intro j hj
    rcases nt with _ | s <;> rcases np with _ | p <;>
      simp [editAction, modifyAt_getElem?_ne _ _ _ _ (by omega : pos - 1 ≠ j)]
  · rcases nt with _ | s <;> rcases np with _ | p <;> simp [editAction]

/-- Claim C9 witness: concrete instantiation of `actions_apply_at_position`
at the edit branch. -/
theorem actions_apply_at_position_witness :
    (editAction [taskA, taskB] 2 none (some 9)).1[2 - 1]? =
      ((([taskA, taskB] : List Task))[2 - 1]?).map (fun t =>
        { t with text := (none : Option String).getD t.text,
                 priority := (some (9 : Int)).getD t.priority }) :=
  (actions_apply_at_position [taskA, taskB] taskA 2 none (some 9)
    (by decide) (by decide)).2.2.1

/-- Claim C10: `sort()` is idempotent, and the underlying sort is stable: a
bucket of tasks sharing one sort key is returned in its original relative
order. -/
theorem sort_idempotent_stable (ts : List Task) (p : Task → Bool)
    (hp : ∀ a ∈ ts, ∀ b ∈ ts, p a = true → p b = true → Task.sortKey a = Task.sortKey b) :
    TasksStore.sort (TasksStore.sort ts) = TasksStore.sort ts ∧
    (List.insertionSort sortRel ts).filter p = ts.filter p :=
  ⟨sort_sort ts, insertionSort_filter_stable ts p hp⟩

/-- Claim C10 witness: two equal-key tasks stay in order, and re-sorting a
sorted store is the identity. -/
theorem sort_idempotent_stable_witness :
    TasksStore.sort (TasksStore.sort [taskA, taskC]) = TasksStore.sort [taskA, taskC] ∧
    (List.insertionSort sortRel [taskA, taskC]).filter (fun _ => true)
      = [taskA, taskC].filter (fun _ => true) :=
  sort_idempotent_stable [taskA, taskC] (fun _ => true) (by decide)

end Todo
